import Mathlib

/-!
Verification of the bracket-arbitrage scanner.

Shallow embedding of the Rust sources:
  * `src/kalshi/types.rs`  — data model (`PriceLevel`, `Orderbook`,
    `BracketQuote`, `ArbOpportunity`, `ArbDirection`, `Order`)
  * `src/detector.rs`      — `taker_fee_cents`, `quote_from_orderbook`,
    `detect_arb`
  * `src/executor.rs`      — `ExecutionResult` and its predicates
  * `src/main.rs`          — `RiskLimits` and the risk-counter updates of
    the scan cycle
  * `src/storage.rs`       — the reconciliation arithmetic of
    `log_reconciliation`

Conventions: Rust `i64` is modelled as `Int` (no overflow occurs in the
ranges exercised), `u32` as `Nat`, `rust_decimal::Decimal` as exact `ℚ`
(the quantities divided here are far below Decimal's 28-digit precision),
and Rust `i64` truncating division as `Int.tdiv`.  Logging, tracing and
I/O calls are no-ops for the values computed and are omitted.
-/

/-- `ArbDirection` from `src/kalshi/types.rs`. -/
inductive ArbDirection where
  | Long
  | Short
deriving DecidableEq, Repr

/-- `PriceLevel` from `src/kalshi/types.rs`: one order-book level. -/
structure PriceLevel where
  price : Int
  quantity : Int
deriving DecidableEq, Repr

/-- `Orderbook` from `src/kalshi/types.rs`. -/
structure Orderbook where
  yes : List PriceLevel
  no : List PriceLevel
deriving DecidableEq, Repr

/-- `BracketQuote` from `src/kalshi/types.rs`. -/
structure BracketQuote where
  ticker : String
  title : String
  yes_ask_cents : Int
  yes_bid_cents : Int
  depth_at_no : Int
  depth_at_yes : Int
deriving DecidableEq, Repr

/-- `ArbOpportunity` from `src/kalshi/types.rs`; `roi_pct` (a
`rust_decimal::Decimal` in the source) is modelled as an exact rational. -/
structure ArbOpportunity where
  event_ticker : String
  event_title : String
  direction : ArbDirection
  brackets : List BracketQuote
  sum_cents : Int
  total_fees_cents : Int
  gross_profit_cents : Int
  net_profit_cents : Int
  roi_pct : ℚ
deriving DecidableEq, Repr

/-- `Order` from `src/kalshi/types.rs`.  The `fill_count` field is used by
`src/storage.rs` (`order.fill_count.or(order.count)`) and listed in the
spec's `Order` model; it is absent from the struct as printed in
`src/kalshi/types.rs`, so it is included here.
Modelled from the spec: the optional `fill_count?` field of `Order`. -/
structure Order where
  order_id : String
  ticker : String
  status : String
  action : String
  side : String
  order_type : String
  yes_price : Option Int
  no_price : Option Int
  count : Option Int
  remaining_count : Option Int
  fill_count : Option Int
deriving DecidableEq, Repr

/-- `FEE_BPS` from `src/detector.rs`. -/
def FEE_BPS : Int := 7

/-- `taker_fee_cents` from `src/detector.rs`:
`if price_cents <= 0 || price_cents >= 100 { return 0 }` then
`(FEE_BPS * contracts * price_cents * (100 - price_cents) + 9_999) / 10_000`
with Rust's truncating `i64` division (`Int.tdiv`). -/
def taker_fee_cents (contracts : Nat) (price_cents : Int) : Int :=
  if price_cents ≤ 0 ∨ price_cents ≥ 100 then 0
  else
    let numerator := FEE_BPS * (contracts : Int) * price_cents * (100 - price_cents)
    Int.tdiv (numerator + 9999) 10000

/-- `quote_from_orderbook` from `src/detector.rs`.  `iter().max()` over the
prices is `List.max?`; the two `debug!` branches only log and are omitted.
Returns `none` exactly when `orderbook.no` is empty (the `?` on
`.max()?`). -/
def quote_from_orderbook (ticker title : String) (orderbook : Orderbook) :
    Option BracketQuote :=
  match (orderbook.no.map (·.price)).max? with
  | none => none
  | some best_no_price =>
    let best_yes_price := (orderbook.yes.map (·.price)).max?
    let yes_ask_cents := 100 - best_no_price
    let yes_bid_cents := best_yes_price.getD 0
    let depth_at_no : Int :=
      ((orderbook.no.filter (fun l => l.price = best_no_price)).map
        (·.quantity)).sum
    let depth_at_yes : Int :=
      match best_yes_price with
      | some p =>
          ((orderbook.yes.filter (fun l => l.price = p)).map (·.quantity)).sum
      | none => 0
    some { ticker := ticker, title := title, yes_ask_cents := yes_ask_cents,
           yes_bid_cents := yes_bid_cents, depth_at_no := depth_at_no,
           depth_at_yes := depth_at_yes }

/-- Direction 1 of `detect_arb` from `src/detector.rs` (the `Long` block:
buy YES on every bracket).  `min_roi_pct` (an `f64` converted to `Decimal`
in the source) and the `Decimal` ROI are modelled as exact rationals; the
quotient `Decimal::from(net_profit * 100) / Decimal::from(total_cost)` is
`Rat.divInt (net_profit * 100) total_cost`, which equals
`((net_profit * 100 : Int) : ℚ) / (total_cost : ℚ)` (`Rat.divInt_eq_div`);
`iter().min()` over depths is `List.min?` with `unwrap_or(0)`.  The
`debug!` call is omitted. -/
def detect_arb_long (event_ticker event_title : String)
    (quotes : List BracketQuote) (position_size : Nat)
    (min_net_profit_cents : Nat) (min_roi_pct : ℚ) : List ArbOpportunity :=
  let sum_cents : Int := (quotes.map (·.yes_ask_cents)).sum
  let total_fees : Int :=
    (quotes.map (fun q => taker_fee_cents position_size q.yes_ask_cents)).sum
  let gross_per_contract := 100 - sum_cents
  let gross_profit := gross_per_contract * (position_size : Int)
  let net_profit := gross_profit - total_fees
  let total_cost := sum_cents * (position_size : Int) + total_fees
  let min_depth := ((quotes.map (·.depth_at_no)).min?).getD 0
  let roi : ℚ :=
    if total_cost > 0 then Rat.divInt (net_profit * 100) total_cost
    else 0
  if net_profit ≥ (min_net_profit_cents : Int) ∧ roi ≥ min_roi_pct ∧
      min_depth ≥ (position_size : Int) then
    [{ event_ticker := event_ticker, event_title := event_title,
       direction := ArbDirection.Long, brackets := quotes,
       sum_cents := sum_cents, total_fees_cents := total_fees,
       gross_profit_cents := gross_profit, net_profit_cents := net_profit,
       roi_pct := roi }]
  else []

/-- Direction 2 of `detect_arb` from `src/detector.rs` (the `Short` block:
sell YES on every bracket); same modelling conventions as
`detect_arb_long`.  For short, the cost is the fixed liability
`100 * position_size`. -/
def detect_arb_short (event_ticker event_title : String)
    (quotes : List BracketQuote) (position_size : Nat)
    (min_net_profit_cents : Nat) (min_roi_pct : ℚ) : List ArbOpportunity :=
  let sum_cents : Int := (quotes.map (·.yes_bid_cents)).sum
  let total_fees : Int :=
    (quotes.map (fun q => taker_fee_cents position_size q.yes_bid_cents)).sum
  let gross_per_contract := sum_cents - 100
  let gross_profit := gross_per_contract * (position_size : Int)
  let net_profit := gross_profit - total_fees
  let total_cost : Int := 100 * (position_size : Int)
  let min_depth := ((quotes.map (·.depth_at_yes)).min?).getD 0
  let roi : ℚ :=
    if total_cost > 0 then Rat.divInt (net_profit * 100) total_cost
    else 0
  if net_profit ≥ (min_net_profit_cents : Int) ∧ roi ≥ min_roi_pct ∧
      min_depth ≥ (position_size : Int) then
    [{ event_ticker := event_ticker, event_title := event_title,
       direction := ArbDirection.Short, brackets := quotes,
       sum_cents := sum_cents, total_fees_cents := total_fees,
       gross_profit_cents := gross_profit, net_profit_cents := net_profit,
       roi_pct := roi }]
  else []

/-- `detect_arb` from `src/detector.rs`: evaluates the Long block, then the
Short block, pushing the Long opportunity (if any) before the Short one. -/
def detect_arb (event_ticker event_title : String)
    (quotes : List BracketQuote) (position_size : Nat)
    (min_net_profit_cents : Nat) (min_roi_pct : ℚ) : List ArbOpportunity :=
  detect_arb_long event_ticker event_title quotes position_size
      min_net_profit_cents min_roi_pct ++
    detect_arb_short event_ticker event_title quotes position_size
      min_net_profit_cents min_roi_pct

/-- `ExecutionResult` from `src/executor.rs`. -/
structure ExecutionResult where
  event_ticker : String
  direction : ArbDirection
  filled : List (String × Order)
  resting : List (String × Order)
  other : List (String × Order)
  api_failures : List String
deriving DecidableEq, Repr

/-- `ExecutionResult::is_fully_filled` from `src/executor.rs`. -/
def ExecutionResult.is_fully_filled (r : ExecutionResult) : Bool :=
  r.resting.isEmpty && r.other.isEmpty && r.api_failures.isEmpty &&
    !r.filled.isEmpty

/-- `ExecutionResult::is_total_failure` from `src/executor.rs`. -/
def ExecutionResult.is_total_failure (r : ExecutionResult) : Bool :=
  r.filled.isEmpty && r.resting.isEmpty && r.other.isEmpty

/-- `MAX_OPEN_ARBS` from `src/main.rs`. -/
def MAX_OPEN_ARBS : Nat := 5

/-- `MAX_DAILY_LOSS_CENTS` from `src/main.rs`. -/
def MAX_DAILY_LOSS_CENTS : Int := 500

/-- `MAX_DAILY_ORDERS` from `src/main.rs`. -/
def MAX_DAILY_ORDERS : Nat := 50

/-- `RiskLimits` from `src/main.rs`; `chrono::NaiveDate` is modelled as an
abstract integer day number (only equality of dates is used). -/
structure RiskLimits where
  open_arbs : Nat
  daily_pnl_cents : Int
  daily_orders : Nat
  today : Int
deriving DecidableEq, Repr

/-- `RiskLimits::maybe_reset_day` from `src/main.rs`, with the current UTC
date passed explicitly.  The `info!` log is omitted. -/
def RiskLimits.maybe_reset_day (l : RiskLimits) (now : Int) : RiskLimits :=
  if now ≠ l.today then
    { l with daily_pnl_cents := 0, daily_orders := 0, today := now }
  else l

/-- `RiskLimits::check` from `src/main.rs`: runs `maybe_reset_day`, then
returns the first blocking reason, if any, together with the (possibly
reset) state. -/
def RiskLimits.check (l : RiskLimits) (now : Int) :
    RiskLimits × Option String :=
  let l := l.maybe_reset_day now
  if l.open_arbs ≥ MAX_OPEN_ARBS then (l, some "MAX_OPEN_ARBS")
  else if l.daily_pnl_cents ≤ -MAX_DAILY_LOSS_CENTS then
    (l, some "MAX_DAILY_LOSS")
  else if l.daily_orders ≥ MAX_DAILY_ORDERS then (l, some "MAX_DAILY_ORDERS")
  else (l, none)

/-- The risk-counter updates of `scan_cycle` (`src/main.rs`, the
`Ok(result)` branch after `executor::execute_arb`): `daily_orders` grows by
the number of placed orders, then the fully-filled / total-failure / mixed
classification updates `open_arbs` and `daily_pnl_cents`.  Logging,
cancellation and alerting calls do not touch the counters and are
omitted. -/
def scan_cycle_risk_update (limits : RiskLimits) (result : ExecutionResult)
    (opp_net_profit_cents : Int) : RiskLimits :=
  let order_count :=
    result.filled.length + result.resting.length + result.other.length
  let limits := { limits with daily_orders := limits.daily_orders + order_count }
  if result.is_fully_filled then
    { limits with open_arbs := limits.open_arbs + 1,
                  daily_pnl_cents :=
                    limits.daily_pnl_cents + opp_net_profit_cents }
  else if result.is_total_failure then
    limits
  else
    let loss : Int :=
      (result.filled.map
        (fun p => (p.2.yes_price.getD 0) * (p.2.count.getD 0))).sum
    { limits with daily_pnl_cents := limits.daily_pnl_cents - loss }

/-- Rust's `as u32` cast of an `i64`: the low 32 bits. -/
def toU32 (x : Int) : Nat := (x % 4294967296).toNat

/-- The effective per-leg contract count used by `log_reconciliation`
(`src/storage.rs`): `order.fill_count.or(order.count).unwrap_or(0) as u32`. -/
def effective_count (o : Order) : Nat := toU32 ((o.fill_count.or o.count).getD 0)

/-- The reconciliation arithmetic of `log_reconciliation` from
`src/storage.rs`: returns `(actual_net, slippage)`.  Per leg, the effective
price is `order.yes_price.unwrap_or(0)` and the effective size is
`fill_count ?? count ?? 0` cast to `u32`; the representative
`position_size` is `fill_count ?? count` of the FIRST filled order
(uncast, `unwrap_or(0)`).  The timestamps, log line and debug slippage
message are omitted. -/
def log_reconciliation_net (opp : ArbOpportunity)
    (filled_orders : List (String × Order)) : Int × Int :=
  let actual_cost_or_revenue : Int :=
    (filled_orders.map
      (fun p => (p.2.yes_price.getD 0) * ((effective_count p.2 : Int)))).sum
  let actual_fees : Int :=
    (filled_orders.map
      (fun p => taker_fee_cents (effective_count p.2) (p.2.yes_price.getD 0))).sum
  let position_size : Int :=
    (filled_orders.head?.bind (fun p => p.2.fill_count.or p.2.count)).getD 0
  let actual_net :=
    match opp.direction with
    | ArbDirection.Long =>
        100 * position_size - actual_cost_or_revenue - actual_fees
    | ArbDirection.Short =>
        actual_cost_or_revenue - 100 * position_size - actual_fees
  (actual_net, actual_net - opp.net_profit_cents)

/-- A concrete single-bracket quote used to instantiate theorems with
hypotheses at a concrete input. -/
def sample_quote : BracketQuote :=
  { ticker := "B", title := "B", yes_ask_cents := 10, yes_bid_cents := 0,
    depth_at_no := 10, depth_at_yes := 0 }

/-- The opportunity `detect_arb` emits for `[sample_quote]` at position
size 5, minimum net profit 1¢ and minimum ROI 0. -/
def sample_long_opp : ArbOpportunity :=
  { event_ticker := "E", event_title := "T",
    direction := ArbDirection.Long, brackets := [sample_quote],
    sum_cents := 10, total_fees_cents := 4, gross_profit_cents := 450,
    net_profit_cents := 446, roi_pct := Rat.divInt 44600 54 }

/-- A concrete order book with two `no` levels, used to instantiate
theorems at a concrete input. -/
def sample_ob : Orderbook :=
  { no := [{ price := 30, quantity := 5 }, { price := 50, quantity := 20 }],
    yes := [{ price := 10, quantity := 3 }] }

/-- `sample_ob` with its two `no` levels swapped. -/
def sample_ob_swapped : Orderbook :=
  { no := [{ price := 50, quantity := 20 }, { price := 30, quantity := 5 }],
    yes := [{ price := 10, quantity := 3 }] }

/-- A concrete executed order used to instantiate theorems at a concrete
input. -/
def sample_order : Order :=
  { order_id := "o1", ticker := "B", status := "executed", action := "buy",
    side := "yes", order_type := "limit", yes_price := some 10,
    no_price := none, count := some 5, remaining_count := some 0,
    fill_count := some 5 }

/-- A fully-filled execution result with the single leg `sample_order`. -/
def sample_exec_result : ExecutionResult :=
  { event_ticker := "E", direction := ArbDirection.Long,
    filled := [("B", sample_order)], resting := [], other := [],
    api_failures := [] }

/-- Fresh risk limits at day `0`. -/
def sample_limits : RiskLimits :=
  { open_arbs := 0, daily_pnl_cents := 0, daily_orders := 0, today := 0 }

/-! ### Helper lemmas about the fee function -/

lemma fee_numerator_nonneg (C : Nat) (P : Int) (h1 : 0 ≤ P) (h2 : P ≤ 100) :
    0 ≤ FEE_BPS * (C : Int) * P * (100 - P) := by
  have hC : (0 : Int) ≤ (C : Int) := Int.natCast_nonneg C
  have : (0 : Int) ≤ FEE_BPS * (C : Int) := by
    unfold FEE_BPS; positivity
  have : (0 : Int) ≤ FEE_BPS * (C : Int) * P := mul_nonneg this h1
  exact mul_nonneg this (by omega)

/-- In the in-range branch, the truncating division of the source is
an (Euclidean) floor division of the nonnegative numerator. -/
lemma taker_fee_cents_eq_ediv (C : Nat) (P : Int) (h1 : 0 < P) (h2 : P < 100) :
    taker_fee_cents C P = (7 * (C : Int) * P * (100 - P) + 9999) / 10000 := by
  unfold taker_fee_cents
  rw [if_neg (by omega)]
  show Int.tdiv (FEE_BPS * (C : Int) * P * (100 - P) + 9999) 10000 = _
  rw [Int.tdiv_eq_ediv
    (by have := fee_numerator_nonneg C P (le_of_lt h1) (le_of_lt h2); omega)
    (by norm_num)]
  unfold FEE_BPS
  rfl

/-- C2: `taker_fee_cents(C, P)` is `0` when `P ≤ 0`, `P ≥ 100` or `C = 0`,
and otherwise equals `(7·C·P·(100−P) + 9_999) div 10_000`, which is the
integer ceiling of `7·C·P·(100−P) / 10_000`; the twelve fee-table values
of the spec hold. -/
theorem taker_fee_cents_spec :
    (∀ (C : Nat) (P : Int), P ≤ 0 ∨ 100 ≤ P ∨ C = 0 →
      taker_fee_cents C P = 0) ∧
    (∀ (C : Nat) (P : Int), 0 < P → P < 100 →
      taker_fee_cents C P = (7 * (C : Int) * P * (100 - P) + 9999) / 10000 ∧
      taker_fee_cents C P = ⌈(((7 * (C : Int) * P * (100 - P) : Int) : ℚ)) / 10000⌉) ∧
    taker_fee_cents 2 5 = 1 ∧ taker_fee_cents 2 10 = 2 ∧
    taker_fee_cents 2 50 = 4 ∧ taker_fee_cents 5 5 = 2 ∧
    taker_fee_cents 5 10 = 4 ∧ taker_fee_cents 5 20 = 6 ∧
    taker_fee_cents 5 25 = 7 ∧ taker_fee_cents 5 33 = 8 ∧
    taker_fee_cents 5 50 = 9 ∧ taker_fee_cents 5 0 = 0 ∧
    taker_fee_cents 5 100 = 0 ∧ taker_fee_cents 0 50 = 0 := by
  refine ⟨?_, ?_, by decide, by decide, by decide, by decide, by decide,
    by decide, by decide, by decide, by decide, by decide, by decide, by decide⟩
  · intro C P h
    rcases h with h | h | h
    · unfold taker_fee_cents; rw [if_pos (Or.inl h)]
    · unfold taker_fee_cents; rw [if_pos (Or.inr h)]
    · subst h
      unfold taker_fee_cents
      by_cases hP : P ≤ 0 ∨ P ≥ 100
      · rw [if_pos hP]
      · rw [if_neg hP]
        show Int.tdiv (FEE_BPS * ((0 : Nat) : Int) * P * (100 - P) + 9999) 10000 = 0
        have h9 : FEE_BPS * ((0 : Nat) : Int) * P * (100 - P) + 9999 = 9999 := by
          push_cast; unfold FEE_BPS; ring
        rw [h9]; decide
  · intro C P h1 h2
    have heq := taker_fee_cents_eq_ediv C P h1 h2
    refine ⟨heq, ?_⟩
    rw [heq]
    symm
    rw [Int.ceil_eq_iff]
    constructor
    · rw [show ((((7 * (C : Int) * P * (100 - P) + 9999) / 10000 : Int) : ℚ) - 1)
          = (((7 * (C : Int) * P * (100 - P) + 9999) / 10000 - 1 : Int) : ℚ) by push_cast; ring,
        lt_div_iff₀ (by norm_num : (0 : ℚ) < 10000)]
      exact_mod_cast (by omega :
        ((7 * (C : Int) * P * (100 - P) + 9999) / 10000 - 1) * 10000 <
          7 * (C : Int) * P * (100 - P))
    · rw [div_le_iff₀ (by norm_num : (0 : ℚ) < 10000)]
      exact_mod_cast (by omega :
        7 * (C : Int) * P * (100 - P) ≤
          ((7 * (C : Int) * P * (100 - P) + 9999) / 10000) * 10000)

/-- Witness for `taker_fee_cents_spec` at concrete inputs: the zero branch
at `(3, 0)` and the div/ceiling branch at `(3, 7)`. -/
theorem taker_fee_cents_spec_witness :
    taker_fee_cents 3 0 = 0 ∧
    (taker_fee_cents 3 7 = (7 * (3 : Int) * 7 * (100 - 7) + 9999) / 10000 ∧
      taker_fee_cents 3 7 = ⌈(((7 * (3 : Int) * 7 * (100 - 7) : Int) : ℚ)) / 10000⌉) :=
  ⟨taker_fee_cents_spec.1 3 0 (Or.inl le_rfl),
   taker_fee_cents_spec.2.1 3 7 (by decide) (by decide)⟩

/-- C8: the fee function vanishes at `C = 0` and at the price boundaries,
is at least one cent for any in-range price and positive count, is
monotone non-decreasing in the contract count at fixed price, and is
symmetric about `P = 50` at fixed count. -/
theorem taker_fee_cents_algebra :
    (∀ P : Int, taker_fee_cents 0 P = 0) ∧
    (∀ C : Nat, taker_fee_cents C 0 = 0 ∧ taker_fee_cents C 100 = 0) ∧
    (∀ (C : Nat) (P : Int), 0 < P → P < 100 → 1 ≤ C →
      1 ≤ taker_fee_cents C P) ∧
    (∀ (C C' : Nat) (P : Int), C ≤ C' →
      taker_fee_cents C P ≤ taker_fee_cents C' P) ∧
    (∀ (C : Nat) (P : Int), 0 ≤ P → P ≤ 100 →
      taker_fee_cents C P = taker_fee_cents C (100 - P)) := by
  have hzero : ∀ P : Int, taker_fee_cents 0 P = 0 := by
    intro P
    unfold taker_fee_cents
    by_cases hP : P ≤ 0 ∨ P ≥ 100
    · rw [if_pos hP]
    · rw [if_neg hP]
      show Int.tdiv (FEE_BPS * ((0 : Nat) : Int) * P * (100 - P) + 9999) 10000 = 0
      have h9 : FEE_BPS * ((0 : Nat) : Int) * P * (100 - P) + 9999 = 9999 := by
        push_cast; unfold FEE_BPS; ring
      rw [h9]; decide
  refine ⟨hzero, ?_, ?_, ?_, ?_⟩
  · intro C
    constructor
    · unfold taker_fee_cents; rw [if_pos (Or.inl le_rfl)]
    · unfold taker_fee_cents; rw [if_pos (Or.inr le_rfl)]
  · intro C P h1 h2 hC
    rw [taker_fee_cents_eq_ediv C P h1 h2]
    have hC' : (1 : Int) ≤ (C : Int) := by exact_mod_cast hC
    have hpos : 0 < 7 * (C : Int) * P * (100 - P) := by
      have := mul_pos (mul_pos (mul_pos (by norm_num : (0 : Int) < 7)
        (lt_of_lt_of_le zero_lt_one hC')) h1) (by omega : (0 : Int) < 100 - P)
      exact this
    omega
  · intro C C' P hCC'
    by_cases hP : P ≤ 0 ∨ P ≥ 100
    · unfold taker_fee_cents; rw [if_pos hP, if_pos hP]
    · have h1 : 0 < P := by omega
      have h2 : P < 100 := by omega
      rw [taker_fee_cents_eq_ediv C P h1 h2, taker_fee_cents_eq_ediv C' P h1 h2]
      apply Int.ediv_le_ediv (by norm_num)
      have hq : (0 : Int) ≤ 7 * (P * (100 - P)) := by
        have : (0 : Int) ≤ P * (100 - P) := mul_nonneg (le_of_lt h1) (by omega)
        omega
      have hCC : ((C : Int)) ≤ (C' : Int) := by exact_mod_cast hCC'
      have key := mul_le_mul_of_nonneg_right hCC hq
      nlinarith [key]
  · intro C P _ _
    unfold taker_fee_cents
    have hcond : (P ≤ 0 ∨ P ≥ 100) ↔ ((100 - P) ≤ 0 ∨ (100 - P) ≥ 100) := by omega
    by_cases h : P ≤ 0 ∨ P ≥ 100
    · rw [if_pos h, if_pos (hcond.mp h)]
    · rw [if_neg h, if_neg (fun hc => h (hcond.mpr hc))]
      show Int.tdiv (FEE_BPS * (C : Int) * P * (100 - P) + 9999) 10000
        = Int.tdiv (FEE_BPS * (C : Int) * (100 - P) * (100 - (100 - P)) + 9999) 10000
      congr 1
      ring_nf

/-- Witness for `taker_fee_cents_algebra` at concrete inputs: the one-cent
floor at `(4, 13)`, monotonicity between `(2, 37)` and `(6, 37)`, and the
symmetry of `(9, 30)` with `(9, 70)`. -/
theorem taker_fee_cents_algebra_witness :
    1 ≤ taker_fee_cents 4 13 ∧
    taker_fee_cents 2 37 ≤ taker_fee_cents 6 37 ∧
    taker_fee_cents 9 30 = taker_fee_cents 9 (100 - 30) :=
  ⟨taker_fee_cents_algebra.2.2.1 4 13 (by decide) (by decide) (by decide),
   taker_fee_cents_algebra.2.2.2.1 2 6 37 (by decide),
   taker_fee_cents_algebra.2.2.2.2 9 30 (by decide) (by decide)⟩

/-- C9: with an empty quote list and any positive position size, no
opportunity is emitted in either direction: the minimum depth over an
empty bracket list is `unwrap_or(0) = 0`, so the depth gate
`min_depth ≥ position_size` fails for both Long and Short. -/
theorem detect_arb_empty_quotes (event_ticker event_title : String)
    (position_size min_net_profit_cents : Nat) (min_roi_pct : ℚ)
    (hps : 1 ≤ position_size) :
    detect_arb event_ticker event_title [] position_size
      min_net_profit_cents min_roi_pct = [] := by
  unfold detect_arb detect_arb_long detect_arb_short
  simp only [List.map_nil, List.sum_nil, List.min?_nil, Option.getD_none]
  rw [if_neg, if_neg]
  · rfl
  all_goals
    rintro ⟨-, -, hdepth⟩
    have hp0 : (0 : Int) < (position_size : Int) := by exact_mod_cast hps
    omega

/-- Witness for `detect_arb_empty_quotes` at position size 1. -/
theorem detect_arb_empty_quotes_witness :
    detect_arb "EVENT" "Event title" [] 1 0 0 = [] :=
  detect_arb_empty_quotes "EVENT" "Event title" 1 0 0 le_rfl

/-- C1: `detect_arb` emits the Long (respectively Short) opportunity if and
only if all three gates pass for that direction — `net_profit ≥
min_net_profit_cents`, `roi ≥ min_roi_pct`, and `min_depth ≥
position_size` — where for Long the sum ranges over `yes_ask_cents` and
the minimum depth over `depth_at_no`, and for Short the sum ranges over
`yes_bid_cents` and the minimum depth over `depth_at_yes`; the two
directions are decided independently on disjoint depth sides. -/
theorem detect_arb_gate_iff (event_ticker event_title : String)
    (quotes : List BracketQuote) (position_size min_net_profit_cents : Nat)
    (min_roi_pct : ℚ) :
    ((∃ o ∈ detect_arb event_ticker event_title quotes position_size
          min_net_profit_cents min_roi_pct, o.direction = ArbDirection.Long) ↔
      ((100 - (quotes.map (·.yes_ask_cents)).sum) * (position_size : Int) -
          (quotes.map (fun q => taker_fee_cents position_size q.yes_ask_cents)).sum
          ≥ (min_net_profit_cents : Int) ∧
        (if (quotes.map (·.yes_ask_cents)).sum * (position_size : Int) +
              (quotes.map (fun q => taker_fee_cents position_size q.yes_ask_cents)).sum
              > 0 then
            Rat.divInt
              (((100 - (quotes.map (·.yes_ask_cents)).sum) * (position_size : Int) -
                (quotes.map (fun q => taker_fee_cents position_size q.yes_ask_cents)).sum)
                * 100)
              ((quotes.map (·.yes_ask_cents)).sum * (position_size : Int) +
                (quotes.map (fun q => taker_fee_cents position_size q.yes_ask_cents)).sum)
          else 0) ≥ min_roi_pct ∧
        ((quotes.map (·.depth_at_no)).min?).getD 0 ≥ (position_size : Int))) ∧
    ((∃ o ∈ detect_arb event_ticker event_title quotes position_size
          min_net_profit_cents min_roi_pct, o.direction = ArbDirection.Short) ↔
      (((quotes.map (·.yes_bid_cents)).sum - 100) * (position_size : Int) -
          (quotes.map (fun q => taker_fee_cents position_size q.yes_bid_cents)).sum
          ≥ (min_net_profit_cents : Int) ∧
        (if (100 : Int) * (position_size : Int) > 0 then
            Rat.divInt
              ((((quotes.map (·.yes_bid_cents)).sum - 100) * (position_size : Int) -
                (quotes.map (fun q => taker_fee_cents position_size q.yes_bid_cents)).sum)
                * 100)
              (100 * (position_size : Int))
          else 0) ≥ min_roi_pct ∧
        ((quotes.map (·.depth_at_yes)).min?).getD 0 ≥ (position_size : Int))) := by
  constructor
  · constructor
    · rintro ⟨o, ho, hdir⟩
      simp only [detect_arb, detect_arb_long, detect_arb_short,
        List.mem_append] at ho
      rcases ho with h | h
      · split at h
        case isTrue hc =>
          split at h
          case isTrue hg => rw [if_pos hc]; exact hg
          case isFalse => simp at h
        case isFalse hc =>
          split at h
          case isTrue hg => rw [if_neg hc]; exact hg
          case isFalse => simp at h
      · split at h
        all_goals split at h
        case isTrue.isTrue =>
          simp only [List.mem_singleton] at h
          rw [h] at hdir
          simp at hdir
        case isFalse.isTrue =>
          simp only [List.mem_singleton] at h
          rw [h] at hdir
          simp at hdir
        all_goals simp at h
    · intro hg
      simp only [detect_arb, detect_arb_long, detect_arb_short,
        List.mem_append]
      exact ⟨_, Or.inl (by rw [if_pos hg]; exact List.mem_singleton_self _), rfl⟩
  · constructor
    · rintro ⟨o, ho, hdir⟩
      simp only [detect_arb, detect_arb_long, detect_arb_short,
        List.mem_append] at ho
      rcases ho with h | h
      · split at h
        all_goals split at h
        case isTrue.isTrue =>
          simp only [List.mem_singleton] at h
          rw [h] at hdir
          simp at hdir
        case isFalse.isTrue =>
          simp only [List.mem_singleton] at h
          rw [h] at hdir
          simp at hdir
        all_goals simp at h
      · split at h
        case isTrue hc =>
          split at h
          case isTrue hg => rw [if_pos hc]; exact hg
          case isFalse => simp at h
        case isFalse hc =>
          split at h
          case isTrue hg => rw [if_neg hc]; exact hg
          case isFalse => simp at h
    · intro hg
      simp only [detect_arb, detect_arb_long, detect_arb_short,
        List.mem_append]
      exact ⟨_, Or.inr (by rw [if_pos hg]; exact List.mem_singleton_self _), rfl⟩

/-- The Long block emits nothing or exactly one Long-direction opportunity
carrying the event fields and the full quote list. -/
lemma detect_arb_long_nil_or_singleton (event_ticker event_title : String)
    (quotes : List BracketQuote) (position_size min_net_profit_cents : Nat)
    (min_roi_pct : ℚ) :
    detect_arb_long event_ticker event_title quotes position_size
        min_net_profit_cents min_roi_pct = [] ∨
      ∃ o, detect_arb_long event_ticker event_title quotes position_size
          min_net_profit_cents min_roi_pct = [o] ∧
        o.direction = ArbDirection.Long ∧ o.event_ticker = event_ticker ∧
        o.event_title = event_title ∧ o.brackets = quotes := by
  simp only [detect_arb_long]
  split <;> split
  all_goals first
    | exact Or.inl rfl
    | exact Or.inr ⟨_, rfl, rfl, rfl, rfl, rfl⟩

/-- The Short block emits nothing or exactly one Short-direction
opportunity carrying the event fields and the full quote list. -/
lemma detect_arb_short_nil_or_singleton (event_ticker event_title : String)
    (quotes : List BracketQuote) (position_size min_net_profit_cents : Nat)
    (min_roi_pct : ℚ) :
    detect_arb_short event_ticker event_title quotes position_size
        min_net_profit_cents min_roi_pct = [] ∨
      ∃ o, detect_arb_short event_ticker event_title quotes position_size
          min_net_profit_cents min_roi_pct = [o] ∧
        o.direction = ArbDirection.Short ∧ o.event_ticker = event_ticker ∧
        o.event_title = event_title ∧ o.brackets = quotes := by
  simp only [detect_arb_short]
  split <;> split
  all_goals first
    | exact Or.inl rfl
    | exact Or.inr ⟨_, rfl, rfl, rfl, rfl, rfl⟩

/-- C10: `detect_arb` returns at most two opportunities, at most one per
direction, with the Long one (when both are present) preceding the Short
one, and every returned opportunity carries the given event ticker, event
title and a copy of the full input bracket list. -/
theorem detect_arb_shape (event_ticker event_title : String)
    (quotes : List BracketQuote) (position_size min_net_profit_cents : Nat)
    (min_roi_pct : ℚ) :
    (detect_arb event_ticker event_title quotes position_size
        min_net_profit_cents min_roi_pct).length ≤ 2 ∧
    (∀ o ∈ detect_arb event_ticker event_title quotes position_size
        min_net_profit_cents min_roi_pct,
      o.event_ticker = event_ticker ∧ o.event_title = event_title ∧
        o.brackets = quotes) ∧
    (detect_arb event_ticker event_title quotes position_size
        min_net_profit_cents min_roi_pct).countP
      (fun o => o.direction == ArbDirection.Long) ≤ 1 ∧
    (detect_arb event_ticker event_title quotes position_size
        min_net_profit_cents min_roi_pct).countP
      (fun o => o.direction == ArbDirection.Short) ≤ 1 ∧
    (∀ a b, detect_arb event_ticker event_title quotes position_size
        min_net_profit_cents min_roi_pct = [a, b] →
      a.direction = ArbDirection.Long ∧ b.direction = ArbDirection.Short) := by
  have hL := detect_arb_long_nil_or_singleton event_ticker event_title quotes
    position_size min_net_profit_cents min_roi_pct
  have hS := detect_arb_short_nil_or_singleton event_ticker event_title quotes
    position_size min_net_profit_cents min_roi_pct
  unfold detect_arb
  rcases hL with hL | ⟨o₁, hL, hd₁, he₁, ht₁, hb₁⟩ <;>
    rcases hS with hS | ⟨o₂, hS, hd₂, he₂, ht₂, hb₂⟩ <;>
    rw [hL, hS] <;> simp_all [List.countP_cons, List.countP_nil]

/-- Witness for `detect_arb_shape`: the opportunity emitted for
`[sample_quote]` at position size 5 carries the event fields and the
quote list. -/
theorem detect_arb_shape_witness :
    sample_long_opp.event_ticker = "E" ∧
    sample_long_opp.event_title = "T" ∧
    sample_long_opp.brackets = [sample_quote] :=
  (detect_arb_shape "E" "T" [sample_quote] 5 1 0).2.1
    sample_long_opp (by decide)

example : detect_arb "E" "T" [sample_quote] 5 1 0 = [sample_long_opp] := by
  decide

/-- C4: every emitted opportunity satisfies the accounting identity — for
Long, `gross = (100 − sum) · position_size`; for Short,
`gross = (sum − 100) · position_size`; `total_fees` is the sum over the
carried brackets of the per-leg fee at that direction's leg price (the sum
of per-leg ceilings); and `net = gross − total_fees`. -/
theorem detect_arb_accounting (event_ticker event_title : String)
    (quotes : List BracketQuote) (position_size min_net_profit_cents : Nat)
    (min_roi_pct : ℚ) :
    ∀ o ∈ detect_arb event_ticker event_title quotes position_size
        min_net_profit_cents min_roi_pct,
      (o.direction = ArbDirection.Long →
        o.gross_profit_cents = (100 - o.sum_cents) * (position_size : Int) ∧
        o.total_fees_cents =
          (o.brackets.map
            (fun q => taker_fee_cents position_size q.yes_ask_cents)).sum) ∧
      (o.direction = ArbDirection.Short →
        o.gross_profit_cents = (o.sum_cents - 100) * (position_size : Int) ∧
        o.total_fees_cents =
          (o.brackets.map
            (fun q => taker_fee_cents position_size q.yes_bid_cents)).sum) ∧
      o.net_profit_cents = o.gross_profit_cents - o.total_fees_cents := by
  intro o ho
  simp only [detect_arb, detect_arb_long, detect_arb_short,
    List.mem_append] at ho
  rcases ho with h | h <;> (split at h; all_goals split at h) <;>
    simp only [List.mem_singleton, List.not_mem_nil] at h <;>
    try exact absurd h (by simp)
  all_goals subst h
  all_goals first
    | exact ⟨fun _ => ⟨rfl, rfl⟩, fun hc => ArbDirection.noConfusion hc, rfl⟩
    | exact ⟨fun hc => ArbDirection.noConfusion hc, fun _ => ⟨rfl, rfl⟩, rfl⟩

/-- Witness for `detect_arb_accounting`: the accounting identity at the
concrete opportunity emitted for `[sample_quote]` at size 5. -/
theorem detect_arb_accounting_witness :
    sample_long_opp.net_profit_cents =
      sample_long_opp.gross_profit_cents -
        sample_long_opp.total_fees_cents ∧
    (sample_long_opp.direction = ArbDirection.Long →
      sample_long_opp.gross_profit_cents =
        (100 - sample_long_opp.sum_cents) * ((5 : Nat) : Int) ∧
      sample_long_opp.total_fees_cents =
        (sample_long_opp.brackets.map
          (fun q => taker_fee_cents 5 q.yes_ask_cents)).sum) :=
  ⟨(detect_arb_accounting "E" "T" [sample_quote] 5 1 0
      sample_long_opp (by decide)).2.2,
    (detect_arb_accounting "E" "T" [sample_quote] 5 1 0
      sample_long_opp (by decide)).1⟩

/-- `List.max?` over the integers only depends on the multiset of
elements. -/
lemma max?_perm {l l' : List Int} (h : l.Perm l') : l.max? = l'.max? := by
  have anti : Std.Antisymm (fun x y : Int => x ≤ y) :=
    ⟨@fun a b h1 h2 => le_antisymm h1 h2⟩
  cases hm : l.max? with
  | none =>
    rw [List.max?_eq_none_iff] at hm
    subst hm
    have hnil : l' = [] := h.symm.eq_nil
    rw [hnil, List.max?_nil]
  | some a =>
    rw [List.max?_eq_some_iff (fun _ => le_refl _) (fun _ _ => max_choice _ _)
      (fun _ _ _ => max_le_iff)] at hm
    symm
    rw [List.max?_eq_some_iff (fun _ => le_refl _) (fun _ _ => max_choice _ _)
      (fun _ _ _ => max_le_iff)]
    exact ⟨h.mem_iff.mp hm.1, fun b hb => hm.2 b (h.mem_iff.mpr hb)⟩

/-- C3: a quote exists iff the `no` side is non-empty; when it does,
`yes_ask = 100 − max(no.price)`, `yes_bid = max(yes.price)` or `0`,
and each depth is the sum of quantities over the levels at the best price
of its side (`0` for an empty `yes`); maxima and sums range over the level
multisets, so the quote is invariant under any permutation of the `yes`
and `no` sequences. -/
theorem quote_from_orderbook_spec (ticker title : String) (ob : Orderbook) :
    (quote_from_orderbook ticker title ob = none ↔ ob.no = []) ∧
    (∀ q, quote_from_orderbook ticker title ob = some q →
      q.ticker = ticker ∧ q.title = title ∧
      (∃ m, m ∈ ob.no.map (·.price) ∧ (∀ p ∈ ob.no.map (·.price), p ≤ m) ∧
        q.yes_ask_cents = 100 - m ∧
        q.depth_at_no =
          ((ob.no.filter (fun l => l.price = m)).map (·.quantity)).sum) ∧
      (ob.yes = [] → q.yes_bid_cents = 0 ∧ q.depth_at_yes = 0) ∧
      (ob.yes ≠ [] → ∃ my, my ∈ ob.yes.map (·.price) ∧
        (∀ p ∈ ob.yes.map (·.price), p ≤ my) ∧
        q.yes_bid_cents = my ∧
        q.depth_at_yes =
          ((ob.yes.filter (fun l => l.price = my)).map (·.quantity)).sum)) ∧
    (∀ ob' : Orderbook, ob.no.Perm ob'.no → ob.yes.Perm ob'.yes →
      quote_from_orderbook ticker title ob =
        quote_from_orderbook ticker title ob') := by
  have anti : Std.Antisymm (fun x y : Int => x ≤ y) :=
    ⟨@fun a b h1 h2 => le_antisymm h1 h2⟩
  refine ⟨?_, ?_, ?_⟩
  · simp only [quote_from_orderbook]
    cases hm : (ob.no.map (·.price)).max? with
    | none =>
      rw [List.max?_eq_none_iff, List.map_eq_nil_iff] at hm
      simp [hm]
    | some m =>
      rw [List.max?_eq_some_iff (fun _ => le_refl _) (fun _ _ => max_choice _ _)
        (fun _ _ _ => max_le_iff)] at hm
      have hne : ob.no ≠ [] := by
        rcases List.mem_map.mp hm.1 with ⟨l, hl, -⟩
        exact List.ne_nil_of_mem hl
      simp [hne]
  · intro q hq
    simp only [quote_from_orderbook] at hq
    cases hm : (ob.no.map (·.price)).max? with
    | none => rw [hm] at hq; exact absurd hq (by simp)
    | some m =>
      rw [hm] at hq
      rw [List.max?_eq_some_iff (fun _ => le_refl _) (fun _ _ => max_choice _ _)
        (fun _ _ _ => max_le_iff)] at hm
      injection hq with hq
      subst hq
      refine ⟨rfl, rfl, ⟨m, hm.1, hm.2, rfl, rfl⟩, ?_, ?_⟩
      · intro hy
        simp [hy]
      · intro hy
        obtain ⟨my, hmy⟩ : ∃ my, (ob.yes.map (·.price)).max? = some my := by
          cases h : (ob.yes.map (·.price)).max? with
          | none =>
            rw [List.max?_eq_none_iff, List.map_eq_nil_iff] at h
            exact absurd h hy
          | some my => exact ⟨my, rfl⟩
        have hc := hmy
        rw [List.max?_eq_some_iff (fun _ => le_refl _)
          (fun _ _ => max_choice _ _) (fun _ _ _ => max_le_iff)] at hc
        refine ⟨my, hc.1, hc.2, ?_, ?_⟩
        · simp [hmy]
        · simp [hmy]
  · intro ob' hno hyes
    simp only [quote_from_orderbook]
    rw [max?_perm (hno.map (·.price)), max?_perm (hyes.map (·.price))]
    cases hm : (ob'.no.map (·.price)).max? with
    | none => rfl
    | some m =>
      dsimp only
      have hdno : ((ob.no.filter (fun l => l.price = m)).map (·.quantity)).sum
          = ((ob'.no.filter (fun l => l.price = m)).map (·.quantity)).sum :=
        ((hno.filter _).map _).sum_eq
      rw [hdno]
      cases hy : (ob'.yes.map (·.price)).max? with
      | none => rfl
      | some p =>
        dsimp only
        have hdy :
            ((ob.yes.filter (fun l => l.price = p)).map (·.quantity)).sum
            = ((ob'.yes.filter (fun l => l.price = p)).map (·.quantity)).sum :=
          ((hyes.filter _).map _).sum_eq
        rw [hdy]

/-- Witness for `quote_from_orderbook_spec`: swapping the two `no` levels
of a concrete book leaves the quote unchanged. -/
theorem quote_from_orderbook_spec_witness :
    quote_from_orderbook "T" "T" sample_ob =
      quote_from_orderbook "T" "T" sample_ob_swapped :=
  (quote_from_orderbook_spec "T" "T" sample_ob).2.2 sample_ob_swapped
    (List.Perm.swap _ _ _) (List.Perm.refl _)

/-- C5: after `execute_arb` returns a result, the scan cycle adds
`|filled| + |resting| + |other|` to `daily_orders` in every outcome
(`api_failures` never consume order quota: the update is unchanged if the
failures are dropped); a fully-filled outcome bumps `open_arbs` by one and
adds the opportunity's `net_profit_cents` to `daily_pnl_cents`; a mixed
outcome subtracts the worst-case loss `Σ yes_price·count` over the filled
legs, a missing `yes_price` or `count` contributing `0`. -/
theorem scan_cycle_risk_update_spec (limits : RiskLimits)
    (result : ExecutionResult) (opp_net_profit_cents : Int) :
    (scan_cycle_risk_update limits result opp_net_profit_cents).daily_orders
        = limits.daily_orders +
          (result.filled.length + result.resting.length +
            result.other.length) ∧
    (scan_cycle_risk_update limits result opp_net_profit_cents).today
        = limits.today ∧
    (scan_cycle_risk_update limits { result with api_failures := [] }
        opp_net_profit_cents).daily_orders
      = (scan_cycle_risk_update limits result
          opp_net_profit_cents).daily_orders ∧
    (result.is_fully_filled = true →
      (scan_cycle_risk_update limits result opp_net_profit_cents).open_arbs
          = limits.open_arbs + 1 ∧
      (scan_cycle_risk_update limits result
          opp_net_profit_cents).daily_pnl_cents
        = limits.daily_pnl_cents + opp_net_profit_cents) ∧
    (result.is_fully_filled = false → result.is_total_failure = true →
      (scan_cycle_risk_update limits result opp_net_profit_cents).open_arbs
          = limits.open_arbs ∧
      (scan_cycle_risk_update limits result
          opp_net_profit_cents).daily_pnl_cents
        = limits.daily_pnl_cents) ∧
    (result.is_fully_filled = false → result.is_total_failure = false →
      (scan_cycle_risk_update limits result opp_net_profit_cents).open_arbs
          = limits.open_arbs ∧
      (scan_cycle_risk_update limits result
          opp_net_profit_cents).daily_pnl_cents
        = limits.daily_pnl_cents -
          (result.filled.map
            (fun p => (p.2.yes_price.getD 0) * (p.2.count.getD 0))).sum) := by
  have hgen : ∀ r : ExecutionResult,
      (scan_cycle_risk_update limits r opp_net_profit_cents).daily_orders
        = limits.daily_orders +
          (r.filled.length + r.resting.length + r.other.length) := by
    intro r
    unfold scan_cycle_risk_update
    split
    · rfl
    · split <;> rfl
  refine ⟨hgen result, ?_, ?_, ?_, ?_, ?_⟩
  · unfold scan_cycle_risk_update
    split
    · rfl
    · split <;> rfl
  · rw [hgen, hgen]
  · intro h1
    unfold scan_cycle_risk_update
    rw [if_pos h1]
    exact ⟨rfl, rfl⟩
  · intro h1 h2
    unfold scan_cycle_risk_update
    rw [if_neg (by simp [h1]), if_pos h2]
    exact ⟨rfl, rfl⟩
  · intro h1 h2
    unfold scan_cycle_risk_update
    rw [if_neg (by simp [h1]), if_neg (by simp [h2])]
    exact ⟨rfl, rfl⟩

/-- Witness for `scan_cycle_risk_update_spec`: the fully-filled outcome at
a concrete one-leg result bumps `open_arbs` and credits the profit. -/
theorem scan_cycle_risk_update_spec_witness :
    (scan_cycle_risk_update sample_limits sample_exec_result 446).open_arbs
        = sample_limits.open_arbs + 1 ∧
    (scan_cycle_risk_update sample_limits
        sample_exec_result 446).daily_pnl_cents
      = sample_limits.daily_pnl_cents + 446 :=
  (scan_cycle_risk_update_spec sample_limits sample_exec_result
    446).2.2.2.1 (by decide)

/-- C6: `RiskLimits.check` first performs the day rollover — when the
current UTC date differs from `today`, `daily_pnl_cents` and
`daily_orders` reset to 0 and `today` is set to the current date while
`open_arbs` is untouched; with no rollover due the state is unchanged —
and then blocks with `MAX_OPEN_ARBS` when `open_arbs ≥ 5`, else
`MAX_DAILY_LOSS` when `daily_pnl_cents ≤ −500`, else `MAX_DAILY_ORDERS`
when `daily_orders ≥ 50`, else permits execution. -/
theorem RiskLimits.check_spec (l : RiskLimits) (now : Int) :
    ((now ≠ l.today →
        (l.check now).1.daily_pnl_cents = 0 ∧
        (l.check now).1.daily_orders = 0 ∧
        (l.check now).1.today = now ∧
        (l.check now).1.open_arbs = l.open_arbs) ∧
      (now = l.today → (l.check now).1 = l)) ∧
    ((l.check now).2 = some "MAX_OPEN_ARBS" ↔
      (l.check now).1.open_arbs ≥ 5) ∧
    ((l.check now).2 = some "MAX_DAILY_LOSS" ↔
      (l.check now).1.open_arbs < 5 ∧
      (l.check now).1.daily_pnl_cents ≤ -500) ∧
    ((l.check now).2 = some "MAX_DAILY_ORDERS" ↔
      (l.check now).1.open_arbs < 5 ∧
      (l.check now).1.daily_pnl_cents > -500 ∧
      (l.check now).1.daily_orders ≥ 50) ∧
    ((l.check now).2 = none ↔
      (l.check now).1.open_arbs < 5 ∧
      (l.check now).1.daily_pnl_cents > -500 ∧
      (l.check now).1.daily_orders < 50) := by
  have hfst : (l.check now).1 = l.maybe_reset_day now := by
    simp only [RiskLimits.check]
    split
    · rfl
    · split
      · rfl
      · split <;> rfl
  constructor
  · constructor
    · intro hne
      rw [hfst]
      unfold RiskLimits.maybe_reset_day
      rw [if_pos hne]
      exact ⟨rfl, rfl, rfl, rfl⟩
    · intro heq
      rw [hfst]
      unfold RiskLimits.maybe_reset_day
      rw [if_neg (by simp [heq])]
  · rw [hfst]
    simp only [RiskLimits.check]
    set l' := l.maybe_reset_day now with hl'
    unfold MAX_OPEN_ARBS MAX_DAILY_LOSS_CENTS MAX_DAILY_ORDERS
    by_cases h1 : l'.open_arbs ≥ 5
    · rw [if_pos h1]
      refine ⟨⟨fun _ => h1, fun _ => rfl⟩, ?_, ?_, ?_⟩
      · exact ⟨fun hs => absurd hs (by simp), fun h => absurd h1 (by omega)⟩
      · exact ⟨fun hs => absurd hs (by simp), fun h => absurd h1 (by omega)⟩
      · exact ⟨fun hs => absurd hs (by simp), fun h => absurd h1 (by omega)⟩
    · rw [if_neg h1]
      by_cases h2 : l'.daily_pnl_cents ≤ -500
      · rw [if_pos h2]
        refine ⟨?_, ?_, ?_, ?_⟩
        · exact ⟨fun hs => absurd hs (by simp), fun h => absurd h h1⟩
        · exact ⟨fun _ => ⟨by omega, h2⟩, fun _ => rfl⟩
        · exact ⟨fun hs => absurd hs (by simp),
            fun h => absurd h.2.1 (by omega)⟩
        · exact ⟨fun hs => absurd hs (by simp),
            fun h => absurd h.2.1 (by omega)⟩
      · rw [if_neg h2]
        by_cases h3 : l'.daily_orders ≥ 50
        · rw [if_pos h3]
          refine ⟨?_, ?_, ?_, ?_⟩
          · exact ⟨fun hs => absurd hs (by simp), fun h => absurd h h1⟩
          · exact ⟨fun hs => absurd hs (by simp), fun h => absurd h.2 h2⟩
          · exact ⟨fun _ => ⟨by omega, by omega, h3⟩, fun _ => rfl⟩
          · exact ⟨fun hs => absurd hs (by simp),
            fun h => absurd h.2.2 (by omega)⟩
        · rw [if_neg h3]
          refine ⟨?_, ?_, ?_, ?_⟩
          · exact ⟨fun hs => absurd hs (by simp), fun h => absurd h h1⟩
          · exact ⟨fun hs => absurd hs (by simp), fun h => absurd h.2 h2⟩
          · exact ⟨fun hs => absurd hs (by simp), fun h => absurd h.2.2 h3⟩
          · exact ⟨fun _ => ⟨by omega, by omega, by omega⟩, fun _ => rfl⟩

/-- Witness for `RiskLimits.check_spec`: checking fresh limits at a new
day leaves the zero counters zero, keeps `open_arbs`, and sets `today`. -/
theorem RiskLimits.check_spec_witness :
    (sample_limits.check 1).1.daily_pnl_cents = 0 ∧
    (sample_limits.check 1).1.daily_orders = 0 ∧
    (sample_limits.check 1).1.today = 1 ∧
    (sample_limits.check 1).1.open_arbs = sample_limits.open_arbs :=
  (RiskLimits.check_spec sample_limits 1).1.1 (by decide)

/-- C7: on a uniform fill — every filled order reporting the same
effective size `fill_count ?? count = s` (in `u32` range) — the actual net
recomputed by `log_reconciliation` is exactly the §4.3 Long/Short formula
over the filled orders, with each leg's effective price the
exchange-returned `yes_price` and per-leg fees from the actual price and
size, and the logged slippage is `actual_net − expected_net` where
`expected_net` is the opportunity's `net_profit_cents`. -/
theorem log_reconciliation_spec (opp : ArbOpportunity)
    (filled_orders : List (String × Order)) (s : Nat)
    (hs : s < 4294967296) (hne : filled_orders ≠ [])
    (hall : ∀ p ∈ filled_orders,
      p.2.fill_count.or p.2.count = some (s : Int)) :
    (log_reconciliation_net opp filled_orders).2
        = (log_reconciliation_net opp filled_orders).1 -
          opp.net_profit_cents ∧
    (opp.direction = ArbDirection.Long →
      (log_reconciliation_net opp filled_orders).1
        = (100 - (filled_orders.map (fun p => p.2.yes_price.getD 0)).sum)
            * (s : Int) -
          (filled_orders.map
            (fun p => taker_fee_cents s (p.2.yes_price.getD 0))).sum) ∧
    (opp.direction = ArbDirection.Short →
      (log_reconciliation_net opp filled_orders).1
        = ((filled_orders.map (fun p => p.2.yes_price.getD 0)).sum - 100)
            * (s : Int) -
          (filled_orders.map
            (fun p => taker_fee_cents s (p.2.yes_price.getD 0))).sum) := by
  have hcnt : ∀ p ∈ filled_orders, effective_count p.2 = s := by
    intro p hp
    unfold effective_count toU32
    rw [hall p hp]
    simp only [Option.getD_some]
    omega
  have hcost : (filled_orders.map
        (fun p => (p.2.yes_price.getD 0) * ((effective_count p.2 : Int)))).sum
      = (filled_orders.map (fun p => p.2.yes_price.getD 0)).sum * (s : Int) := by
    rw [← List.sum_map_mul_right]
    congr 1
    apply List.map_congr_left
    intro p hp
    rw [hcnt p hp]
  have hfees : (filled_orders.map (fun p =>
        taker_fee_cents (effective_count p.2) (p.2.yes_price.getD 0))).sum
      = (filled_orders.map
          (fun p => taker_fee_cents s (p.2.yes_price.getD 0))).sum := by
    congr 1
    apply List.map_congr_left
    intro p hp
    rw [hcnt p hp]
  have hpos : (filled_orders.head?.bind
        (fun p => p.2.fill_count.or p.2.count)).getD 0 = (s : Int) := by
    cases filled_orders with
    | nil => exact absurd rfl hne
    | cons a t =>
      rw [List.head?_cons,
        show (some a).bind (fun p => p.2.fill_count.or p.2.count)
          = a.2.fill_count.or a.2.count from rfl,
        hall a (List.mem_cons_self a t)]
      rfl
  refine ⟨?_, ?_, ?_⟩
  · unfold log_reconciliation_net
    rfl
  · intro hdir
    simp only [log_reconciliation_net, hdir]
    rw [hcost, hfees, hpos]
    ring
  · intro hdir
    simp only [log_reconciliation_net, hdir]
    rw [hcost, hfees, hpos]
    ring

/-- Witness for `log_reconciliation_spec`: the uniform single-leg fill of
`sample_order` (size 5 at 10¢) against `sample_long_opp`. -/
theorem log_reconciliation_spec_witness :
    (log_reconciliation_net sample_long_opp [("B", sample_order)]).2
      = (log_reconciliation_net sample_long_opp [("B", sample_order)]).1 -
        sample_long_opp.net_profit_cents :=
  (log_reconciliation_spec sample_long_opp [("B", sample_order)] 5
    (by decide) (by simp) (by decide)).1
